import Mathlib

/-!
# Verification of the `llm_novel_writer` repository

Shallow embedding of the pure core of the novel-writing pipeline
(`novel_writer/utils.py`, `novel_writer/chapter_manager.py`,
`novel_writer/memory_manager.py`, `novel_writer/writer.py`) and proofs of
the specification's testable properties about it.

Python strings are modelled as `List Char` (named `Str`); Python `dict`
values are modelled by the dynamic value type `PyVal`.
-/

namespace NovelWriter

/-- Python `str` is modelled as a list of characters. -/
abbrev Str := List Char

/-- Coerce a Lean string literal into the `Str` model. -/
def str (s : String) : Str := s.data

/-- The whitespace class used by Python's `str.strip` and the regex class
`\s` (ASCII subset, which is all the repository's data exercises). -/
def isPySpace (c : Char) : Bool :=
  c = ' ' || c = '\t' || c = '\n' || c = '\r' || c = '\x0b' || c = '\x0c'

/-- Python `s.strip()`: drop whitespace from both ends. -/
def pyStrip (s : Str) : Str :=
  (s.dropWhile isPySpace).reverse.dropWhile isPySpace |>.reverse

/-- Python `s.split('\n')`: always returns a non-empty list of parts. -/
def splitNL : Str → List Str
  | [] => [[]]
  | c :: cs =>
    match splitNL cs with
    | [] => [[]]
    | l :: ls => if c = '\n' then [] :: l :: ls else (c :: l) :: ls

/-- Python `'\n'.join(parts)`. -/
def joinNL : List Str → Str
  | [] => []
  | [p] => p
  | p :: q :: rest => p ++ '\n' :: joinNL (q :: rest)

/-- Python slice `lst[a:b]` for `0 ≤ a ≤ b` (the only shape the sources use,
after their own `max(0, ·)` clamping). -/
def pySlice (l : List α) (a b : Nat) : List α := (l.take b).drop a

/-- Python `s[-n:]`: the last `n` elements (the whole list if shorter, and
also the whole list at `n = 0`, since `s[-0:]` is `s[0:]`). -/
def takeRight (n : Nat) (l : List α) : List α :=
  if n = 0 then l else l.drop (l.length - n)

/-- Python `re.sub(r'\n+', '\n', s)`: collapse each maximal run of newlines
to a single newline (keeping one newline per run). -/
def collapseNL (s : Str) : Str :=
  s.foldr (fun c acc => if c = '\n' && acc.head? == some '\n' then acc else c :: acc) []

/-- Fuel-driven worker for `replaceSub`; each step consumes at least one
character, so fuel equal to the input length suffices. -/
def replaceSubAux (pat rep : Str) : Nat → Str → Str
  | 0, s => s
  | _ + 1, [] => []
  | fuel + 1, c :: rest =>
    if !pat.isEmpty && pat.isPrefixOf (c :: rest) then
      rep ++ replaceSubAux pat rep fuel ((c :: rest).drop pat.length)
    else
      c :: replaceSubAux pat rep fuel rest

/-- Python `s.replace(pat, rep)` for a non-empty pattern: replace every
(leftmost, non-overlapping) occurrence. -/
def replaceSub (pat rep s : Str) : Str := replaceSubAux pat rep s.length s

/-- Worker for `findRuns`: returns the runs together with a flag telling
whether the first input character satisfied `p` (so a preceding character
satisfying `p` must join the first run). -/
def findRunsAux (p : Char → Bool) : Str → List Str × Bool
  | [] => ([], false)
  | c :: rest =>
    let (runs, adj) := findRunsAux p rest
    if p c then
      if adj then
        match runs with
        | r :: rs => ((c :: r) :: rs, true)
        | [] => ([[c]], true)
      else
        ([c] :: runs, true)
    else
      (runs, false)

/-- The maximal runs of consecutive characters satisfying `p`, in order:
the model of Python `re.findall(r'[class]+', text)`. -/
def findRuns (p : Char → Bool) (s : Str) : List Str := (findRunsAux p s).1

/-- Hangul syllable block, Python regex class `[가-힣]`. -/
def isHangul (c : Char) : Bool := '가' ≤ c && c ≤ '힣'

/-- Latin letters, Python regex class `[a-zA-Z]`. -/
def isLatin (c : Char) : Bool := ('a' ≤ c && c ≤ 'z') || ('A' ≤ c && c ≤ 'Z')

/-- `utils.count_words`: number of Hangul characters (joined runs) plus
number of Latin-letter runs. -/
def count_words (text : Str) : Nat :=
  (findRuns isHangul text).flatten.length + (findRuns isLatin text).length

/-- `utils.validate_content`: reject empty-after-trim content and content
whose word count is below 30% of `min_words`.  The Python comparison
`word_count < min_words * 0.3` on integer operands is written here as the
exact equivalent `10 * word_count < 3 * min_words`
(see `validate_threshold_iff_rat`). -/
def validate_content (content : Str) (min_words : Nat) : Bool :=
  if content.isEmpty || (pyStrip content).isEmpty then
    false
  else if 10 * count_words content < 3 * min_words then
    false
  else
    true

/-- One step of the `utils.remove_duplicate_sentences` loop state:
`prev_line` (`none` models Python `None`) and `consecutive_count`.
The Python guard `if prev_line and stripped == prev_line` is truthiness
on `prev_line` plus equality with the stripped current line. -/
def prevMatches (prev : Option Str) (stripped : Str) : Bool :=
  match prev with
  | none => false
  | some q => !q.isEmpty && stripped == q

/-- The line-filtering loop of `utils.remove_duplicate_sentences`:
blank lines are kept and reset the state; a non-blank line equal (after
strip) to the previous kept line bumps the consecutive counter and is
dropped once the counter reaches 2. -/
def rdsLoop (prev : Option Str) (count : Nat) : List Str → List Str
  | [] => []
  | line :: rest =>
    let stripped := pyStrip line
    if stripped.isEmpty then
      line :: rdsLoop none 0 rest
    else if prevMatches prev stripped then
      if count + 1 ≥ 2 then
        rdsLoop prev (count + 1) rest
      else
        line :: rdsLoop (some stripped) (count + 1) rest
    else
      line :: rdsLoop (some stripped) 0 rest

/-- `utils.remove_duplicate_sentences`: split into lines, drop the third
and later consecutive copies of a repeated non-blank line, re-join. -/
def remove_duplicate_sentences (text : Str) : Str :=
  joinNL (rdsLoop none 0 (splitNL text))

/-- Membership in the run of a non-blank line with stripped content `s`:
non-blank and stripped-equal (the loop compares stripped lines, so lines
differing only in surrounding whitespace belong to the same run). -/
def sameStrippedAs (s : Str) (l : Str) : Bool :=
  !(pyStrip l).isEmpty && pyStrip l == s

/-- Specification of the duplicate-line collapse, following the spec's
words: blank lines are kept (and end any run); every maximal run of
consecutive non-blank lines with identical stripped content is cut down to
its first two lines.  Compared against the source's
`remove_duplicate_sentences` in the C3 theorem. -/
def specCollapse : List Str → List Str
  | [] => []
  | line :: rest =>
    if (pyStrip line).isEmpty then
      line :: specCollapse rest
    else
      (line :: (rest.takeWhile (sameStrippedAs (pyStrip line))).take 1) ++
        specCollapse (rest.dropWhile (sameStrippedAs (pyStrip line)))
termination_by s => s.length
decreasing_by
  · simp only [List.length_cons]
    omega
  · simp only [List.length_cons]
    exact Nat.lt_succ_of_le (List.dropWhile_sublist ..).length_le

/-- Render a natural number the way Python interpolates an `int` into an
f-string. -/
def natStr (n : Nat) : Str := (toString n).data

/-- `writer_config.Chapter`: one chapter record. -/
structure Chapter where
  number : Nat
  title : Str
  outline : Str
  content : Str := []
  summary : Str := []
  key_events : List Str := []
  word_count : Nat := 0
deriving DecidableEq

/-- `ChapterManager.get_recent_chapters`: Python slice
`chapters[max(0, current_number - 1 - count) : current_number - 1]`
(truncated `Nat` subtraction performs the `max(0, ·)` clamp). -/
def get_recent_chapters (chapters : List Chapter) (current_number count : Nat) :
    List Chapter :=
  pySlice chapters (current_number - 1 - count) (current_number - 1)

/-- The chapters whose full content `ChapterManager.build_short_term_memory`
draws from: the slice
`chapters[max(0, current_number - 1 - stm_chapter_count) : current_number - 1]`. -/
def stmChapters (chapters : List Chapter) (current_number stm_chapter_count : Nat) :
    List Chapter :=
  pySlice chapters (current_number - 1 - stm_chapter_count) (current_number - 1)

/-- The Python test `if not ch.content or not ch.content.strip(): continue`
keeps a chapter when its content is non-empty and non-blank. -/
def hasRealContent (ch : Chapter) : Bool :=
  !(ch.content.isEmpty || (pyStrip ch.content).isEmpty)

/-- `ChapterManager.build_short_term_memory`: header plus, per recent
chapter with real content, a `[챕터 n: title]` tag and the chapter's full
content, joined by newlines; empty for the first chapter, an empty slice, or
no real content; right-truncated to `max_chars` with a replacement header
when too long. -/
def build_short_term_memory (chapters : List Chapter)
    (current_number stm_chapter_count max_chars : Nat) : Str :=
  if current_number ≤ 1 then [] else
  let recent_chapters := stmChapters chapters current_number stm_chapter_count
  if recent_chapters.isEmpty then [] else
  let stm_parts := str "=== 단기기억 (최근 챕터 내용 - 중복 방지용) ===" ::
    (recent_chapters.filter hasRealContent).flatMap fun ch =>
      [str "\n[챕터 " ++ natStr ch.number ++ str ": " ++ ch.title ++ str "]", ch.content]
  let content_found := recent_chapters.any hasRealContent
  if !content_found then [] else
  let full_stm := joinNL stm_parts
  if max_chars < full_stm.length then
    str "=== 단기기억 (최근 " ++ natStr max_chars ++ str "자) ===\n[...앞부분 생략...]\n" ++
      takeRight max_chars full_stm
  else
    full_stm

/-- `ChapterManager.build_context`: for the first chapter a preamble, the
long-term memory and the supplied outline context; otherwise the tail of the
immediately preceding chapter's content (style priming, when present), the
long-term memory header and summary, and the outline context, joined by
newlines. -/
def build_context (chapters : List Chapter) (current_number recent_count : Nat)
    (memory_summary global_outline_context : Str) : Str :=
  if current_number = 1 then
    str "이 소설의 첫 번째 챕터입니다.\n\n장기 기억:\n" ++ memory_summary ++
      str "\n\n" ++ global_outline_context
  else
    let recent := get_recent_chapters chapters current_number recent_count
    let style_parts :=
      match recent.getLast? with
      | some last_chapter =>
        if !last_chapter.content.isEmpty then
          [str "--- 이전 챕터 마지막 단락 (문체 참고) ---",
           str "[..." ++ takeRight 500 (collapseNL (pyStrip last_chapter.content)) ++ str "]"]
        else []
      | none => []
    joinNL (style_parts ++
      [str "\n--- 장기 기억 (핵심 플롯/설정) ---", memory_summary, global_outline_context])

/-- The numbering invariant the pipeline establishes: the ledger holds
chapters numbered `1, 2, …, length` in order (`structure_generator` creates
them this way and `set_chapters` keeps them sorted by number). -/
def wellNumbered (chapters : List Chapter) : Prop :=
  chapters.map Chapter.number = List.range' 1 chapters.length

instance (chapters : List Chapter) : Decidable (wellNumbered chapters) := by
  unfold wellNumbered; infer_instance

/-- `Writer.write_chapter`'s retry loop, with the generation-and-
post-processing step `_write()` abstracted as an oracle `draft` mapping the
current `retry_count` to the post-processed draft text.  `fuel` bounds the
structural recursion; `write_chapter` supplies enough fuel that the guard
`retry_count < 2` is always the deciding condition, exactly as in the
source. -/
def write_chapter_aux (draft : Nat → Str) (min_words : Nat) :
    Nat → Nat → Str × Nat
  | 0, retry_count => (draft retry_count, count_words (draft retry_count))
  | fuel + 1, retry_count =>
    if validate_content (draft retry_count) min_words = false ∧ retry_count < 2 then
      write_chapter_aux draft min_words fuel (retry_count + 1)
    else
      (draft retry_count, count_words (draft retry_count))

/-- `Writer.write_chapter` starting at `retry_count = 0`: returns the final
content together with the `chapter.word_count` it records. -/
def write_chapter (draft : Nat → Str) (min_words : Nat) : Str × Nat :=
  write_chapter_aux draft min_words 3 0

/-- The branch condition of `Writer.refine_chapter`:
`word_count < min_words * 0.8 or word_count > max_words * 1.2`, written with
the exact integer equivalents of the rational thresholds
(see `needs_full_rewrite_iff_rat`). -/
def needs_full_rewrite (word_count min_words max_words : Nat) : Bool :=
  (10 * word_count < 8 * min_words) || (12 * max_words < 10 * word_count)

/-- The two refinement prompts `Writer.refine_chapter` can issue. -/
inductive RefineBranch where
  | fullRewrite
  | targetedEdit
deriving DecidableEq

/-- The prompt-selection step of `Writer.refine_chapter`: a full
length-adjusting rewrite when the word count is out of band, a targeted
feedback edit otherwise. -/
def refine_chapter_branch (ch : Chapter) (min_words max_words : Nat) :
    RefineBranch :=
  if needs_full_rewrite ch.word_count min_words max_words then
    .fullRewrite
  else
    .targetedEdit

/-- A draft oracle returning the same 50-word text on every attempt. -/
def fiftyWordDraft : Nat → Str := fun _ => List.replicate 50 '가'

/-- Dynamic Python values, as stored in the memory manager's fields and in
parsed JSON responses. -/
inductive PyVal where
  | vstr : Str → PyVal
  | vint : Int → PyVal
  | vbool : Bool → PyVal
  | vnull : PyVal
  | vlist : List PyVal → PyVal
  | vdict : List (Str × PyVal) → PyVal

/-- Python `isinstance(v, list)`. -/
def PyVal.isList : PyVal → Bool
  | .vlist _ => true
  | _ => false

/-- Python `isinstance(v, dict)`. -/
def PyVal.isDict : PyVal → Bool
  | .vdict _ => true
  | _ => false

/-- Python truthiness of a value (`not data` tests). -/
def pyTruthy : PyVal → Bool
  | .vstr s => !s.isEmpty
  | .vint n => decide (n ≠ 0)
  | .vbool b => b
  | .vnull => false
  | .vlist l => !l.isEmpty
  | .vdict d => !d.isEmpty

/-- Python `data.get(key, default)` on a dict modelled as an association
list with unique keys. -/
def dictGetD (d : List (Str × PyVal)) (k : Str) (default : PyVal) : PyVal :=
  match d.find? (fun kv => kv.1 == k) with
  | some kv => kv.2
  | none => default

/-- Python `d[key] = v` on the association-list dict model. -/
def dictSet (d : List (Str × PyVal)) (k : Str) (v : PyVal) :
    List (Str × PyVal) :=
  if d.any (fun kv => kv.1 == k) then
    d.map fun kv => if kv.1 == k then (kv.1, v) else kv
  else
    d ++ [(k, v)]

/-- `v.get(key, default)` where `v` is known to be a dict (as in
`optimize_memory`'s success path). -/
def pyGetD (v : PyVal) (k : Str) (default : PyVal) : PyVal :=
  match v with
  | .vdict d => dictGetD d k default
  | _ => default

/-- The state of `memory_manager.NovelMemoryManager`: the rolling memory
log, the per-character development map, the plot-thread map and the world
events, each a dynamic value because persisted state may be mistyped. -/
structure NovelMemoryManager where
  memory : PyVal
  character_development : PyVal
  plot_threads : PyVal
  world_events : PyVal

/-- `NovelMemoryManager.to_dict` (the later, overriding definition in the
source): serialize the four fields under their own names. -/
def to_dict (m : NovelMemoryManager) : List (Str × PyVal) :=
  [(str "memory", m.memory),
   (str "character_development", m.character_development),
   (str "plot_threads", m.plot_threads),
   (str "world_events", m.world_events)]

/-- `NovelMemoryManager.from_dict` (the later, overriding definition in the
source): restore each field with an empty-container default, and reset any
field whose restored value has the wrong runtime type (`plot_threads` may
be a dict or a list). -/
def from_dict (data : List (Str × PyVal)) : NovelMemoryManager :=
  let memory := dictGetD data (str "memory") (.vlist [])
  let memory := if memory.isList then memory else .vlist []
  let cd := dictGetD data (str "character_development") (.vdict [])
  let cd := if cd.isDict then cd else .vdict []
  let pt := dictGetD data (str "plot_threads") (.vdict [])
  let pt := if pt.isDict || pt.isList then pt else .vdict []
  let we := dictGetD data (str "world_events") (.vlist [])
  let we := if we.isList then we else .vlist []
  ⟨memory, cd, pt, we⟩

/-- The validation step of `LongTermMemoryOptimizer._optimize_with_llm` on
the parsed response: reject an absent/falsy or non-dict result. -/
def optimize_with_llm (data : PyVal) : Option PyVal :=
  if pyTruthy data && data.isDict then some data else none

/-- `LongTermMemoryOptimizer.optimize_memory`, with the generate-and-parse
step abstracted to the parsed response `data`: on a validated response,
replace `character_development` and `plot_threads` in the serialized state
(defaulting to the originals) and restore; otherwise leave the manager
untouched and report failure. -/
def optimize_memory (mm : NovelMemoryManager) (data : PyVal) :
    NovelMemoryManager × Bool :=
  let memory_dict := to_dict mm
  let original_char_dev := dictGetD memory_dict (str "character_development") (.vdict [])
  let original_plot_threads := dictGetD memory_dict (str "plot_threads") (.vdict [])
  match optimize_with_llm data with
  | some od =>
    let md := dictSet memory_dict (str "character_development")
      (pyGetD od (str "character_development") original_char_dev)
    let md := dictSet md (str "plot_threads")
      (pyGetD od (str "plot_threads") original_plot_threads)
    (from_dict md, true)
  | none => (mm, false)

/-- A concrete well-typed memory state for witnesses. -/
def sampleMemoryState : NovelMemoryManager :=
  ⟨.vlist [.vstr (str "요약 1")],
   .vdict [(str "주인공", .vlist [.vstr (str "성장")])],
   .vdict [(str "복선", .vstr (str "진행 중"))],
   .vlist []⟩

/-- All positions at which `pat` occurs in `t` (ascending). -/
def occurrences (pat t : Str) : List Nat :=
  (List.range (t.length + 1)).filter fun j => pat.isPrefixOf (t.drop j)

/-- The literal `"content"` (quotes included) from the writer's regex. -/
def quotedContentLit : Str := str "\"content\""

/-- The tail `([\s\S]*?)"\s*\}` of the writer's first content regex: the
lazy group takes the least `c` such that position `c` holds `"` followed by
whitespace and `}` (the `\s*` before `}` is deterministic because `}` is not
whitespace). -/
def lazyContentCapture (w : Str) : Option Str :=
  (List.range w.length).findSome? fun c =>
    if w[c]? == some '"' &&
        ((w.drop (c + 1)).dropWhile isPySpace).head? == some '}' then
      some (w.take c)
    else
      none

/-- The `[\s\S]*:\s*"` middle of the first content regex: the greedy star
prefers the rightmost `:` for which the rest matches; after `:`, whitespace
is consumed deterministically and a `"` must follow. -/
def matchColonQuote (u : Str) : Option Str :=
  ((List.range u.length).filter fun k => u[k]? == some ':').reverse.findSome?
    fun k =>
      match (u.drop (k + 1)).dropWhile isPySpace with
      | '"' :: w => lazyContentCapture w
      | _ => none

/-- The `[\s\S]*"content"` part after the opening brace: the greedy star
prefers the rightmost occurrence of `"content"` for which the rest of the
pattern matches. -/
def matchAfterBrace (t : Str) : Option Str :=
  (occurrences quotedContentLit t).reverse.findSome? fun j =>
    matchColonQuote (t.drop (j + quotedContentLit.length))

/-- `re.search(r'\{[\s\S]*"content"[\s\S]*:\s*"([\s\S]*?)"\s*\}', s)`:
leftmost match start (which must hold `{`), then the backtracking order of
the quantifiers; returns the capture group. -/
def regexSearchContent (s : Str) : Option Str :=
  (List.range s.length).findSome? fun i =>
    if s[i]? == some '{' then matchAfterBrace (s.drop (i + 1)) else none

/-- `extracted.replace('\\"', '"').replace('\\n', '\n')`. -/
def unescapeContent (g : Str) : Str :=
  replaceSub (str "\\n") (str "\n") (replaceSub (str "\\\"") (str "\"") g)

/-- Index of the last `}` in `s`: Python `s.rfind('}')` (`none` for -1). -/
def lastBraceIdx (s : Str) : Option Nat :=
  ((List.range s.length).filter fun i => s[i]? == some '}').getLast?

/-- Index of the last `"` in `s`. -/
def lastQuoteIdx (s : Str) : Option Nat :=
  ((List.range s.length).filter fun i => s[i]? == some '"').getLast?

/-- `re.search(r'"content"\s*:\s*"([^"]*(?:"[^"]*)*)"', s, re.DOTALL)`:
leftmost `"content"` occurrence whose tail matches; the greedy group then
extends to just before the last `"` of the remaining input. -/
def regex2SearchContent (s : Str) : Option Str :=
  (List.range (s.length + 1)).findSome? fun j =>
    if quotedContentLit.isPrefixOf (s.drop j) then
      match (s.drop (j + quotedContentLit.length)).dropWhile isPySpace with
      | ':' :: u =>
        match u.dropWhile isPySpace with
        | '"' :: w =>
          match lastQuoteIdx w with
          | some q => some (w.take q)
          | none => none
        | _ => none
      | _ => none
    else
      none

/-- Fuel-driven JSON string-body parser (model of the string scanning in
`json.loads`): called after the opening quote, returns the decoded body and
the input remaining after the closing quote.  `\uXXXX` escapes are outside
the model. -/
def parseJsonStringAux : Nat → Str → Option (Str × Str)
  | 0, _ => none
  | _ + 1, [] => none
  | fuel + 1, c :: rest =>
    if c = '"' then
      some ([], rest)
    else if c = '\\' then
      match rest with
      | [] => none
      | e :: rest2 =>
        let dec : Option Char :=
          if e = '"' then some '"'
          else if e = '\\' then some '\\'
          else if e = '/' then some '/'
          else if e = 'n' then some '\n'
          else if e = 't' then some '\t'
          else if e = 'r' then some '\r'
          else if e = 'b' then some '\x08'
          else if e = 'f' then some '\x0c'
          else none
        match dec with
        | some d => (parseJsonStringAux fuel rest2).map fun p => (d :: p.1, p.2)
        | none => none
    else
      (parseJsonStringAux fuel rest).map fun p => (c :: p.1, p.2)

/-- JSON string body parser with enough fuel for its input. -/
def parseJsonStringFrom (s : Str) : Option (Str × Str) :=
  parseJsonStringAux (s.length + 1) s

/-- JSON integer parser (the repository's responses carry no floats). -/
def parseJsonInt (s : Str) : Option (Int × Str) :=
  let (neg, s1) := match s with
    | '-' :: t => (true, t)
    | _ => (false, s)
  let digits := s1.takeWhile Char.isDigit
  if digits.isEmpty then
    none
  else
    let n : Nat := digits.foldl (fun acc c => acc * 10 + (c.toNat - '0'.toNat)) 0
    some ((if neg then -(n : Int) else (n : Int)), s1.drop digits.length)

/-- Skip JSON whitespace. -/
def jsonSkipWs (s : Str) : Str := s.dropWhile isPySpace

/-- Parser state for the fuel-driven JSON value parser. -/
inductive JsonMode where
  | value
  | objMembers (acc : List (Str × PyVal))
  | arrElems (acc : List PyVal)

/-- Fuel-driven recursive-descent JSON parser (model of `json.loads` on the
object/array/string/int/bool/null subset the repository's prompts produce).
Every recursive call consumes fuel, so twice the input length plus slack
always suffices. -/
def parseJson : Nat → JsonMode → Str → Option (PyVal × Str)
  | 0, _, _ => none
  | fuel + 1, .value, s =>
    match jsonSkipWs s with
    | [] => none
    | c :: rest =>
      if c = '"' then
        (parseJsonStringFrom rest).map fun p => (.vstr p.1, p.2)
      else if c = '{' then
        match jsonSkipWs rest with
        | '}' :: r2 => some (.vdict [], r2)
        | _ => parseJson fuel (.objMembers []) rest
      else if c = '[' then
        match jsonSkipWs rest with
        | ']' :: r2 => some (.vlist [], r2)
        | _ => parseJson fuel (.arrElems []) rest
      else if (str "true").isPrefixOf (c :: rest) then
        some (.vbool true, (c :: rest).drop 4)
      else if (str "false").isPrefixOf (c :: rest) then
        some (.vbool false, (c :: rest).drop 5)
      else if (str "null").isPrefixOf (c :: rest) then
        some (.vnull, (c :: rest).drop 4)
      else
        (parseJsonInt (c :: rest)).map fun p => (.vint p.1, p.2)
  | fuel + 1, .objMembers acc, s =>
    match jsonSkipWs s with
    | '"' :: rest =>
      match parseJsonStringFrom rest with
      | none => none
      | some (k, r1) =>
        match jsonSkipWs r1 with
        | ':' :: r2 =>
          match parseJson fuel .value r2 with
          | none => none
          | some (v, r3) =>
            match jsonSkipWs r3 with
            | ',' :: r4 => parseJson fuel (.objMembers (acc ++ [(k, v)])) r4
            | '}' :: r4 => some (.vdict (acc ++ [(k, v)]), r4)
            | _ => none
        | _ => none
    | _ => none
  | fuel + 1, .arrElems acc, s =>
    match parseJson fuel .value s with
    | none => none
    | some (v, r1) =>
      match jsonSkipWs r1 with
      | ',' :: r2 => parseJson fuel (.arrElems (acc ++ [v])) r2
      | ']' :: r2 => some (.vlist (acc ++ [v]), r2)
      | _ => none

/-- `json.loads`: a complete value with only whitespace after it. -/
def jsonLoads (s : Str) : Option PyVal :=
  match parseJson (2 * s.length + 4) .value s with
  | some (v, rest) => if (jsonSkipWs rest).isEmpty then some v else none
  | none => none

/-- `Writer._parse_json_response`: strip, and if the text looks like a JSON
object, first try the content regex (unescaping `\"` and `\n` in the
capture), then `json.loads` on the prefix up to the last `}` (returning the
`content` field of a dict), and on a parse failure the fallback content
regex; otherwise return the trimmed text unchanged.  In the source, a
non-string `content` field is returned as-is and crashes the caller's
post-processing; that unreachable-for-prose arm is modelled as the empty
string. -/
def parse_json_response (content : Str) : Str :=
  let content_trimmed := pyStrip content
  if content_trimmed.head? == some '{' then
    match regexSearchContent content_trimmed with
    | some g => unescapeContent g
    | none =>
      match lastBraceIdx content_trimmed with
      | some lb =>
        match jsonLoads (content_trimmed.take (lb + 1)) with
        | some (.vdict d) =>
          match d.find? fun kv => kv.1 == str "content" with
          | some kv =>
            match kv.2 with
            | .vstr sv => sv
            | _ => []
          | none => content_trimmed
        | some _ => content_trimmed
        | none =>
          match regex2SearchContent content_trimmed with
          | some g => unescapeContent g
          | none => content_trimmed
      | none => content_trimmed
  else
    content_trimmed

/-- The drafted first chapter of the concrete witness ledger. -/
def ledgerHead : Chapter := ⟨1, str "서막", str "개요1", str "Hello", [], [], 1⟩

/-- A two-chapter ledger with a drafted first chapter, used to instantiate
theorems about context assembly. -/
def twoChapterLedger : List Chapter :=
  [ledgerHead, ⟨2, str "전개", str "개요2", [], [], [], 0⟩]

/-- The integer threshold test used in `validate_content` coincides with
the rational statement `word_count < min_words * 3/10`. -/
theorem validate_threshold_iff_rat (wc m : Nat) :
    (10 * wc < 3 * m) ↔ ((wc : ℚ) < (m : ℚ) * (3 / 10)) := by
  rw [mul_comm (m : ℚ), div_mul_eq_mul_div, lt_div_iff₀ (by norm_num : (0:ℚ) < 10)]
  constructor
  · intro h
    have : ((10 * wc : Nat) : ℚ) < ((3 * m : Nat) : ℚ) := by exact_mod_cast h
    push_cast at this
    linarith
  · intro h
    have : ((10 * wc : Nat) : ℚ) < ((3 * m : Nat) : ℚ) := by push_cast; linarith
    exact_mod_cast this

/-- In a well-numbered ledger, the chapter at position `i` carries number
`i + 1`. -/
theorem wellNumbered_getElem {chapters : List Chapter}
    (hw : wellNumbered chapters) {i : Nat} (h : i < chapters.length) :
    (chapters[i]).number = i + 1 := by
  have h2 := congrArg (fun t => t[i]?) hw
  simp only [wellNumbered] at hw
  simp only [List.getElem?_map, List.getElem?_range', h, if_pos,
    List.getElem?_eq_getElem] at h2
  simp at h2
  omega

/-- Elements of the short-term-memory slice sit strictly before
`current_number` in a well-numbered ledger. -/
theorem stmChapters_number_lt {chapters : List Chapter}
    (hw : wellNumbered chapters) (n w : Nat) :
    ∀ ch ∈ stmChapters chapters n w, ch.number < n := by
  intro ch hch
  have hmem : ch ∈ chapters.take (n - 1) :=
    List.mem_of_mem_drop (by simpa [stmChapters, pySlice] using hch)
  obtain ⟨i, hi, hEq⟩ := List.mem_iff_getElem.mp hmem
  have hlt : i < n - 1 ∧ i < chapters.length := by
    simp [List.length_take] at hi; omega
  have hnum : ch.number = i + 1 := by
    rw [← hEq, List.getElem_take]
    exact wellNumbered_getElem hw hlt.2
  omega

/-- Elements of the short-term-memory slice are ledger chapters. -/
theorem stmChapters_subset {chapters : List Chapter} {n w : Nat} :
    ∀ ch ∈ stmChapters chapters n w, ch ∈ chapters := by
  intro ch hch
  exact List.mem_of_mem_take
    (List.mem_of_mem_drop (by simpa [stmChapters, pySlice] using hch))

/-- C1: for every chapter number `n`, window size `w` and character limit
`m`, the short-term memory built by `ChapterManager.build_short_term_memory`
draws content only from chapters numbered strictly below `n`, and it is the
empty string when `n` is the first chapter or when no prior chapter has
non-blank content. -/
theorem c1_short_term_memory_scope (chapters : List Chapter)
    (hw : wellNumbered chapters) (n w m : Nat) :
    (∀ ch ∈ stmChapters chapters n w, ch.number < n)
    ∧ (n ≤ 1 → build_short_term_memory chapters n w m = [])
    ∧ ((∀ ch ∈ chapters, ch.number < n → pyStrip ch.content = []) →
        build_short_term_memory chapters n w m = []) := by
  refine ⟨stmChapters_number_lt hw n w, ?_, ?_⟩
  · intro h
    simp [build_short_term_memory, h]
  · intro hblank
    by_cases h1 : n ≤ 1
    · simp [build_short_term_memory, h1]
    by_cases hrec : (stmChapters chapters n w).isEmpty
    · simp [build_short_term_memory, h1, hrec]
    have hany : (stmChapters chapters n w).any hasRealContent = false := by
      rw [List.any_eq_false]
      intro ch hch
      have hb := hblank ch (stmChapters_subset ch hch)
        (stmChapters_number_lt hw n w ch hch)
      simp [hasRealContent, hb]
    simp [build_short_term_memory, h1, hrec, hany]

/-- Witness instantiating `c1_short_term_memory_scope` on a concrete
two-chapter ledger at `n = 2`. -/
theorem c1_short_term_memory_scope_witness :
    (∀ ch ∈ stmChapters twoChapterLedger 2 3, ch.number < 2)
    ∧ (2 ≤ 1 → build_short_term_memory twoChapterLedger 2 3 100 = [])
    ∧ ((∀ ch ∈ twoChapterLedger, ch.number < 2 → pyStrip ch.content = []) →
        build_short_term_memory twoChapterLedger 2 3 100 = []) :=
  c1_short_term_memory_scope twoChapterLedger (by decide) 2 3 100

/-- C2 is false on the code: for the first chapter, `build_context` appends
the whole-outline map after the memory summary, so the result is not
"preamble plus memory summary and nothing else" — it changes when the
outline-map argument changes. -/
theorem c2_first_chapter_context_counterexample :
    build_context [] 1 2 (str "MEM") (str "MAP") =
      str "이 소설의 첫 번째 챕터입니다.\n\n장기 기억:\nMEM\n\nMAP"
    ∧ build_context [] 1 2 (str "MEM") (str "MAP") ≠
      build_context [] 1 2 (str "MEM") [] := by
  exact ⟨by decide, by decide⟩

/-- C2 amended: for the first chapter `build_context` returns the fixed
preamble, the memory summary and then the outline context; for a later
chapter `n` (with a positive recent window and a drafted predecessor) it
returns, in order, the ~500-character tail of the immediately preceding
chapter (number `n - 1`) labelled as style reference, the memory-summary
header and summary, and the outline context. -/
theorem c2_build_context_amended (chapters : List Chapter)
    (hw : wellNumbered chapters) (n rc : Nat) (ms omap : Str) :
    (n = 1 → build_context chapters n rc ms omap =
      str "이 소설의 첫 번째 챕터입니다.\n\n장기 기억:\n" ++ ms ++ str "\n\n" ++ omap)
    ∧ (2 ≤ n → n ≤ chapters.length → 1 ≤ rc →
        ∀ prev, chapters[n - 2]? = some prev → prev.content ≠ [] →
        prev.number = n - 1 ∧
        build_context chapters n rc ms omap =
          joinNL [str "--- 이전 챕터 마지막 단락 (문체 참고) ---",
            str "[..." ++ takeRight 500 (collapseNL (pyStrip prev.content)) ++ str "]",
            str "\n--- 장기 기억 (핵심 플롯/설정) ---", ms, omap]) := by
  constructor
  · intro h1
    simp [build_context, h1]
  · intro h2 hlen hrc prev hprev hcontent
    have hidx : n - 2 < chapters.length := by omega
    have hget : chapters[n - 2] = prev := by
      rw [List.getElem?_eq_getElem hidx] at hprev
      exact Option.some.inj hprev
    refine ⟨by rw [← hget, wellNumbered_getElem hw hidx]; omega, ?_⟩
    have hne : ¬ n = 1 := by omega
    have hlast :
        (get_recent_chapters chapters n rc).getLast? = some prev := by
      have htlen : (chapters.take (n - 1)).length = n - 1 := by
        simp [List.length_take]; omega
      have hdlen : ((chapters.take (n - 1)).drop (n - 1 - rc)).length
          = (n - 1) - (n - 1 - rc) := by
        simp [htlen]
      rw [get_recent_chapters, pySlice, List.getLast?_eq_getElem?, hdlen,
        List.getElem?_drop, List.getElem?_take]
      have harith : n - 1 - rc + ((n - 1) - (n - 1 - rc) - 1) = n - 2 := by omega
      rw [if_pos (by omega), harith, List.getElem?_eq_getElem hidx, hget]
    simp only [build_context, if_neg hne, hlast]
    rw [if_pos (by simp [hcontent])]
    rfl

/-- Witness instantiating `c2_build_context_amended` on the concrete
two-chapter ledger at `n = 2`. -/
theorem c2_build_context_amended_witness :
    ledgerHead.number = 2 - 1
    ∧ build_context twoChapterLedger 2 2 (str "MEM") (str "MAP") =
      joinNL [str "--- 이전 챕터 마지막 단락 (문체 참고) ---",
        str "[..." ++ takeRight 500 (collapseNL (pyStrip ledgerHead.content))
          ++ str "]",
        str "\n--- 장기 기억 (핵심 플롯/설정) ---", str "MEM", str "MAP"] :=
  (c2_build_context_amended twoChapterLedger (by decide) 2 2
    (str "MEM") (str "MAP")).2 (by decide) (by decide) (by decide)
    ledgerHead (by decide) (by decide)

/-- `splitNL` never returns an empty list of parts. -/
theorem splitNL_ne_nil (s : Str) : splitNL s ≠ [] := by
  cases s with
  | nil => simp [splitNL]
  | cons c cs =>
    rcases h : splitNL cs with _ | ⟨l, ls⟩
    · simp [splitNL, h]
    · simp only [splitNL, h]
      split <;> simp

/-- No part produced by `splitNL` contains a newline. -/
theorem splitNL_no_newline (s : Str) : ∀ part ∈ splitNL s, '\n' ∉ part := by
  induction s with
  | nil => intro part hp; simp [splitNL] at hp; simp [hp]
  | cons c cs ih =>
    intro part hp
    rcases h : splitNL cs with _ | ⟨l, ls⟩
    · exact absurd h (splitNL_ne_nil cs)
    simp only [splitNL, h] at hp
    by_cases hc : c = '\n'
    · rw [if_pos hc] at hp
      rcases List.mem_cons.mp hp with h1 | h1
      · simp [h1]
      · exact ih part (h ▸ h1)
    · rw [if_neg hc] at hp
      rcases List.mem_cons.mp hp with h1 | h1
      · subst h1
        intro hmem
        rcases List.mem_cons.mp hmem with h2 | h2
        · exact hc h2.symm
        · exact ih l (h ▸ List.mem_cons_self l ls) h2
      · exact ih part (h ▸ List.mem_cons_of_mem l h1)

/-- Splitting a newline-free string is the identity (one part). -/
theorem splitNL_of_no_newline {s : Str} (h : '\n' ∉ s) : splitNL s = [s] := by
  induction s with
  | nil => simp [splitNL]
  | cons c cs ih =>
    have hc : ¬ c = '\n' := fun hcc => h (by simp [hcc])
    have hcs : '\n' ∉ cs := fun hm => h (List.mem_cons_of_mem _ hm)
    simp only [splitNL, ih hcs]
    rw [if_neg hc]

/-- Splitting after appending a newline-free prefix and an explicit newline
peels off exactly that prefix. -/
theorem splitNL_append_newline {p : Str} (hp : '\n' ∉ p) (t : Str) :
    splitNL (p ++ '\n' :: t) = p :: splitNL t := by
  induction p with
  | nil =>
    rcases h : splitNL t with _ | ⟨l, ls⟩
    · exact absurd h (splitNL_ne_nil t)
    · simp [splitNL, h]
  | cons c p' ih =>
    have hc : ¬ c = '\n' := fun hc => hp (by simp [hc])
    have hp' : '\n' ∉ p' := fun hm => hp (by simp [hm])
    rcases h : splitNL (p' ++ '\n' :: t) with _ | ⟨l, ls⟩
    · exact absurd h (splitNL_ne_nil _)
    · have := ih hp'
      rw [h] at this
      cases this
      simp [splitNL, h, if_neg hc]

/-- `splitNL` is a left inverse of `joinNL` on non-empty lists of
newline-free parts. -/
theorem splitNL_joinNL {parts : List Str} (hne : parts ≠ [])
    (hnl : ∀ p ∈ parts, '\n' ∉ p) : splitNL (joinNL parts) = parts := by
  induction parts with
  | nil => exact absurd rfl hne
  | cons p rest ih =>
    cases rest with
    | nil => simpa [joinNL] using splitNL_of_no_newline (hnl p (by simp))
    | cons q rest' =>
      rw [joinNL, splitNL_append_newline (hnl p (by simp))]
      rw [ih (by simp) (fun x hx => hnl x (by simp [hx]))]

/-- Every line kept by the `remove_duplicate_sentences` loop is an input
line. -/
theorem rdsLoop_mem {xs : List Str} {p : Option Str} {c : Nat} :
    ∀ x ∈ rdsLoop p c xs, x ∈ xs := by
  induction xs generalizing p c with
  | nil => simp [rdsLoop]
  | cons line rest ih =>
    intro x hx
    simp only [rdsLoop] at hx
    split at hx
    · rcases List.mem_cons.mp hx with h | h
      · simp [h]
      · exact List.mem_cons_of_mem _ (ih x h)
    · split at hx
      · split at hx
        · exact List.mem_cons_of_mem _ (ih x hx)
        · rcases List.mem_cons.mp hx with h | h
          · simp [h]
          · exact List.mem_cons_of_mem _ (ih x h)
      · rcases List.mem_cons.mp hx with h | h
        · simp [h]
        · exact List.mem_cons_of_mem _ (ih x h)

/-- The loop keeps the first input line, so its output is never empty. -/
theorem rdsLoop_none_ne_nil (line : Str) (rest : List Str) :
    rdsLoop none 0 (line :: rest) ≠ [] := by
  simp only [rdsLoop, prevMatches]
  split <;> simp

/-- One unfolding step of the `remove_duplicate_sentences` loop. -/
theorem rdsLoop_cons (p : Option Str) (c : Nat) (line : Str) (rest : List Str) :
    rdsLoop p c (line :: rest) =
      if (pyStrip line).isEmpty then line :: rdsLoop none 0 rest
      else if prevMatches p (pyStrip line) then
        (if c + 1 ≥ 2 then rdsLoop p (c + 1) rest
         else line :: rdsLoop (some (pyStrip line)) (c + 1) rest)
      else line :: rdsLoop (some (pyStrip line)) 0 rest := by
  simp only [rdsLoop]

/-- Re-running the `remove_duplicate_sentences` loop over its own output
changes nothing, for any pair of initial states that agree on whether the
consecutive counter has started. -/
theorem rdsLoop_idem (xs : List Str) :
    ∀ (p : Option Str) (c₁ c₂ : Nat), (1 ≤ c₁ ↔ 1 ≤ c₂) →
    rdsLoop p c₂ (rdsLoop p c₁ xs) = rdsLoop p c₁ xs := by
  induction xs with
  | nil => intro p c₁ c₂ _; simp [rdsLoop]
  | cons line rest ih =>
    intro p c₁ c₂ hc
    by_cases hblank : (pyStrip line).isEmpty
    · rw [rdsLoop_cons p c₁, if_pos hblank, rdsLoop_cons p c₂, if_pos hblank,
        ih none 0 0 Iff.rfl]
    · by_cases hmatch : prevMatches p (pyStrip line)
      · by_cases hcount : c₁ + 1 ≥ 2
        · rw [rdsLoop_cons p c₁, if_neg hblank, if_pos hmatch, if_pos hcount,
            ih p (c₁ + 1) c₂ ⟨fun _ => hc.mp (by omega), fun _ => by omega⟩]
        · have hc₂ : c₂ = 0 := by
            by_contra h
            exact absurd (hc.mpr (by omega)) (by omega)
          subst hc₂
          rw [rdsLoop_cons p c₁, if_neg hblank, if_pos hmatch, if_neg hcount,
            rdsLoop_cons p 0, if_neg hblank, if_pos hmatch, if_neg (by omega),
            ih (some (pyStrip line)) (c₁ + 1) 1
              ⟨fun _ => by omega, fun _ => by omega⟩]
      · rw [rdsLoop_cons p c₁, if_neg hblank, if_neg hmatch,
          rdsLoop_cons p c₂, if_neg hblank, if_neg hmatch,
          ih (some (pyStrip line)) 0 0 Iff.rfl]

/-- C7: the duplicate-line collapse is idempotent — applying
`remove_duplicate_sentences` twice yields the same result as applying it
once. -/
theorem c7_remove_duplicates_idempotent (text : Str) :
    remove_duplicate_sentences (remove_duplicate_sentences text) =
      remove_duplicate_sentences text := by
  have houtne : rdsLoop none 0 (splitNL text) ≠ [] := by
    obtain ⟨l, ls, hcons⟩ := List.exists_cons_of_ne_nil (splitNL_ne_nil text)
    rw [hcons]
    exact rdsLoop_none_ne_nil l ls
  have hnl : ∀ p ∈ rdsLoop none 0 (splitNL text), '\n' ∉ p := fun p hp =>
    splitNL_no_newline text p (rdsLoop_mem p hp)
  unfold remove_duplicate_sentences
  rw [splitNL_joinNL houtne hnl, rdsLoop_idem (splitNL text) none 0 0 Iff.rfl]

/-- C3 is false on the code: a run of three identical non-blank lines is
collapsed to two occurrences, not to a single one (the loop only drops
copies once the consecutive counter reaches 2, keeping the first two). -/
theorem c3_duplicate_run_counterexample :
    remove_duplicate_sentences (str "A\nA\nA") = str "A\nA"
    ∧ remove_duplicate_sentences (str "A\nA\nA") ≠ str "A" :=
  ⟨by decide, by decide⟩

/-- One unfolding step of `specCollapse`. -/
theorem specCollapse_cons (line : Str) (rest : List Str) :
    specCollapse (line :: rest) =
      if (pyStrip line).isEmpty then line :: specCollapse rest
      else (line :: (rest.takeWhile (sameStrippedAs (pyStrip line))).take 1) ++
        specCollapse (rest.dropWhile (sameStrippedAs (pyStrip line))) := by
  simp only [specCollapse]

/-- Once the consecutive counter has started, every further consecutive
line stripping to the pending content `s` is dropped, and the counter ends
up advanced by the number of dropped lines. -/
theorem rdsLoop_drop_run {s : Str} (hs : s ≠ []) :
    ∀ (ys : List Str), (∀ l ∈ ys, pyStrip l = s) →
      ∀ (tail : List Str) (c : Nat), 1 ≤ c →
      rdsLoop (some s) c (ys ++ tail) = rdsLoop (some s) (c + ys.length) tail := by
  intro ys
  induction ys with
  | nil => intro _ tail c _; simp
  | cons y ys' ih =>
    intro hall tail c hc
    have hy : pyStrip y = s := hall y (List.mem_cons_self y ys')
    have hie : ¬ (pyStrip y).isEmpty = true := by
      rw [List.isEmpty_eq_true, hy]
      exact hs
    have hsie : s.isEmpty = false := by
      rw [← hy] at hs
      rw [← hy]
      exact Bool.eq_false_iff.mpr (fun h => hs (List.isEmpty_eq_true.mp h))
    rw [List.cons_append, rdsLoop_cons, if_neg hie,
      if_pos (by simp [prevMatches, hy, hsie]), if_pos (by omega),
      ih (fun l hl => hall l (List.mem_cons_of_mem y hl)) tail (c + 1) (by omega)]
    congr 1
    simp only [List.length_cons]
    omega

/-- Starting the loop on input whose first line does not match the pending
state behaves exactly like starting from the reset state. -/
theorem rdsLoop_reset (p : Option Str) (c : Nat) (xs : List Str)
    (h : ∀ l, xs.head? = some l → prevMatches p (pyStrip l) = false) :
    rdsLoop p c xs = rdsLoop none 0 xs := by
  cases xs with
  | nil => simp [rdsLoop]
  | cons l r =>
    have hl := h l rfl
    rw [rdsLoop_cons, rdsLoop_cons]
    by_cases hb : (pyStrip l).isEmpty = true
    · rw [if_pos hb, if_pos hb]
    · rw [if_neg hb, if_neg hb, if_neg (by simp [hl]),
        if_neg (by simp [prevMatches])]

/-- A line outside the run of stripped content `s` cannot match the pending
state `s` either. -/
theorem prevMatches_of_not_sameStripped {s l : Str} (hs : s ≠ [])
    (h : sameStrippedAs s l = false) :
    prevMatches (some s) (pyStrip l) = false := by
  cases hbe : (pyStrip l == s) with
  | false => simp [prevMatches, hbe]
  | true =>
    have heq : pyStrip l = s := beq_iff_eq.mp hbe
    rw [sameStrippedAs, hbe, Bool.and_true, Bool.not_eq_false'] at h
    exact absurd (heq ▸ List.isEmpty_eq_true.mp h) hs

/-- The first line remaining after a maximal run fails the pending-state
match. -/
theorem reset_after_run {s : Str} (hs : s ≠ []) (rest : List Str) :
    ∀ l, (rest.dropWhile (sameStrippedAs s)).head? = some l →
      prevMatches (some s) (pyStrip l) = false := by
  intro l hl
  have hfalse : sameStrippedAs s l = false := by
    have h2 := List.head?_dropWhile_not (sameStrippedAs s) rest
    rw [hl] at h2
    simpa using h2
  exact prevMatches_of_not_sameStripped hs hfalse

/-- The duplicate-removal loop computes `specCollapse` (fuel-indexed strong
induction on the line list). -/
theorem rdsLoop_eq_specCollapse :
    ∀ (fuel : Nat) (xs : List Str), xs.length ≤ fuel →
      rdsLoop none 0 xs = specCollapse xs := by
  intro fuel
  induction fuel with
  | zero =>
    intro xs hx
    have hnil : xs = [] := List.length_eq_zero.mp (Nat.le_zero.mp hx)
    subst hnil
    simp [rdsLoop, specCollapse]
  | succ n ih =>
    intro xs hx
    cases xs with
    | nil => simp [rdsLoop, specCollapse]
    | cons line rest =>
      simp only [List.length_cons] at hx
      have hrlen : rest.length ≤ n := by omega
      rw [specCollapse_cons, rdsLoop_cons]
      by_cases hb : (pyStrip line).isEmpty = true
      · rw [if_pos hb, if_pos hb, ih rest hrlen]
      · have hs : pyStrip line ≠ [] := fun h => hb (by rw [h]; rfl)
        have hlie : (pyStrip line).isEmpty = false := Bool.eq_false_iff.mpr hb
        rw [if_neg hb, if_neg hb, if_neg (by simp [prevMatches])]
        have hsplit :=
          List.takeWhile_append_dropWhile (sameStrippedAs (pyStrip line)) rest
        have hdlen : (rest.dropWhile (sameStrippedAs (pyStrip line))).length ≤ n :=
          le_trans (List.dropWhile_sublist ..).length_le hrlen
        cases hrun : rest.takeWhile (sameStrippedAs (pyStrip line)) with
        | nil =>
          have hrest : rest.dropWhile (sameStrippedAs (pyStrip line)) = rest := by
            conv_rhs => rw [← hsplit]
            rw [hrun, List.nil_append]
          rw [rdsLoop_reset _ _ rest
              (by rw [← hrest]; exact reset_after_run hs rest),
            ih rest hrlen, hrest]
          simp
        | cons r1 run' =>
          have hr1 : sameStrippedAs (pyStrip line) r1 = true :=
            List.mem_takeWhile_imp (hrun ▸ List.mem_cons_self r1 run')
          have hr1strip : pyStrip r1 = pyStrip line := by
            rw [sameStrippedAs, Bool.and_eq_true, beq_iff_eq] at hr1
            exact hr1.2
          have hr1ie : ¬ (pyStrip r1).isEmpty = true := by
            rw [List.isEmpty_eq_true, hr1strip]
            exact hs
          have hrest : rest =
              r1 :: (run' ++ rest.dropWhile (sameStrippedAs (pyStrip line))) := by
            conv_lhs => rw [← hsplit]
            rw [hrun]
            simp
          conv_lhs => rw [hrest]
          rw [rdsLoop_cons, if_neg hr1ie,
            if_pos (by simp [prevMatches, hr1strip, hlie]), if_neg (by omega),
            hr1strip,
            rdsLoop_drop_run hs run'
              (fun l hl => by
                have h3 := List.mem_takeWhile_imp
                  (hrun ▸ List.mem_cons_of_mem r1 hl)
                rw [sameStrippedAs, Bool.and_eq_true, beq_iff_eq] at h3
                exact h3.2)
              _ 1 (by omega),
            rdsLoop_reset _ _ _ (reset_after_run hs rest),
            ih _ hdlen]
          simp

/-- C3 amended: for every input text, `remove_duplicate_sentences` keeps
blank lines (which reset the comparison) and collapses every maximal run of
consecutive non-blank lines with identical whitespace-stripped content down
to that run's first two lines: runs of length ≥ 3 shrink to two
occurrences, a pair stays unchanged, and lines differing only in
surrounding whitespace belong to the same run.  `specCollapse` states that
specification directly; the theorem proves the source function refines it
on all inputs. -/
theorem c3_duplicate_collapse_amended (text : Str) :
    remove_duplicate_sentences text = joinNL (specCollapse (splitNL text)) := by
  unfold remove_duplicate_sentences
  rw [rdsLoop_eq_specCollapse (splitNL text).length (splitNL text) le_rfl]

/-- Concatenating the maximal `p`-runs of a string recovers exactly its
`p`-characters. -/
theorem findRuns_flatten (p : Char → Bool) (s : Str) :
    (findRuns p s).flatten = s.filter p := by
  induction s with
  | nil => simp [findRuns, findRunsAux]
  | cons c rest ih =>
    simp only [findRuns, findRunsAux] at ih ⊢
    by_cases hp : p c
    · rw [if_pos hp]
      rcases hruns : (findRunsAux p rest).1 with _ | ⟨r, rs⟩
      · rcases hadj : (findRunsAux p rest).2
        · simp_all [List.filter_cons, hp]
        · simp_all [List.filter_cons, hp]
      · rcases hadj : (findRunsAux p rest).2
        · simp_all [List.filter_cons, hp]
        · simp only [hruns, hadj] at ih ⊢
          simp_all [List.filter_cons, hp]
    · rw [if_neg hp]
      simp_all [List.filter_cons, hp]

/-- A string with no `p`-character has no `p`-runs. -/
theorem findRuns_eq_nil {p : Char → Bool} {s : Str}
    (h : ∀ c ∈ s, p c = false) : findRuns p s = [] := by
  induction s with
  | nil => simp [findRuns, findRunsAux]
  | cons c rest ih =>
    have hrest := ih fun x hx => h x (List.mem_cons_of_mem c hx)
    simp only [findRuns, findRunsAux] at hrest ⊢
    rw [if_neg (by simp [h c (List.mem_cons_self c rest)])]
    exact hrest

/-- `validate_content` fails exactly on blank-after-trim content or a word
count below 30% of `min_words`. -/
theorem validate_content_false_iff (content : Str) (m : Nat) :
    validate_content content m = false ↔
      (pyStrip content = [] ∨ 10 * count_words content < 3 * m) := by
  have hstrip : (content.isEmpty || (pyStrip content).isEmpty) = true ↔
      pyStrip content = [] := by
    constructor
    · intro h
      rcases Bool.or_eq_true_iff.mp h with h1 | h1
      · rw [List.isEmpty_eq_true.mp h1]; rfl
      · exact List.isEmpty_eq_true.mp h1
    · intro h
      simp [h]
  unfold validate_content
  by_cases h1 : (content.isEmpty || (pyStrip content).isEmpty) = true
  · simp [h1, hstrip.mp h1]
  · rw [if_neg h1]
    by_cases h2 : 10 * count_words content < 3 * m
    · simp [h2]
    · simp only [h2, if_false]
      simp only [hstrip] at h1
      simp [h1, h2]

/-- The integer forms of the `refine_chapter` thresholds agree with the
rational statements `word_count < 0.8 * min_words` and
`word_count > 1.2 * max_words`. -/
theorem needs_full_rewrite_iff_rat (wc mn mx : Nat) :
    needs_full_rewrite wc mn mx = true ↔
      ((wc : ℚ) < (mn : ℚ) * (8 / 10) ∨ (mx : ℚ) * (12 / 10) < (wc : ℚ)) := by
  unfold needs_full_rewrite
  rw [Bool.or_eq_true_iff, decide_eq_true_iff, decide_eq_true_iff]
  constructor
  · rintro (h | h)
    · left
      rw [mul_comm (mn : ℚ), div_mul_eq_mul_div, lt_div_iff₀ (by norm_num : (0:ℚ) < 10)]
      have : ((10 * wc : Nat) : ℚ) < ((8 * mn : Nat) : ℚ) := by exact_mod_cast h
      push_cast at this
      linarith
    · right
      rw [mul_comm (mx : ℚ), div_mul_eq_mul_div, div_lt_iff₀ (by norm_num : (0:ℚ) < 10)]
      have : ((12 * mx : Nat) : ℚ) < ((10 * wc : Nat) : ℚ) := by exact_mod_cast h
      push_cast at this
      linarith
  · rintro (h | h)
    · left
      rw [mul_comm (mn : ℚ), div_mul_eq_mul_div, lt_div_iff₀ (by norm_num : (0:ℚ) < 10)] at h
      have : ((10 * wc : Nat) : ℚ) < ((8 * mn : Nat) : ℚ) := by push_cast; linarith
      exact_mod_cast this
    · right
      rw [mul_comm (mx : ℚ), div_mul_eq_mul_div, div_lt_iff₀ (by norm_num : (0:ℚ) < 10)] at h
      have : ((12 * mx : Nat) : ℚ) < ((10 * wc : Nat) : ℚ) := by push_cast; linarith
      exact_mod_cast this

/-- C10 is false as stated: digits-and-punctuation content counts as 0
words, but with `min_words = 0` the threshold test `0 < 0.3 * 0` fails and
`validate_content` accepts the content instead of rejecting it "regardless
of min_words". -/
theorem c10_validate_zero_min_counterexample :
    count_words (str "123 !?") = 0 ∧ validate_content (str "123 !?") 0 = true :=
  ⟨by decide, by decide⟩

/-- C10 amended: `count_words` returns the number of Hangul syllable
characters plus the number of maximal Latin-letter runs; for text with no
Hangul syllable and no Latin letter the count is 0 and `validate_content`
rejects the text for every positive `min_words` (with `min_words = 0`,
non-blank such text is accepted). -/
theorem c10_count_words_amended (text : Str) :
    count_words text =
      (text.filter isHangul).length + (findRuns isLatin text).length
    ∧ ((∀ c ∈ text, isHangul c = false ∧ isLatin c = false) →
        count_words text = 0
        ∧ ∀ m : Nat, 1 ≤ m → validate_content text m = false) := by
  constructor
  · unfold count_words
    rw [findRuns_flatten]
  · intro h
    have hcount : count_words text = 0 := by
      unfold count_words
      rw [findRuns_eq_nil (fun c hc => (h c hc).2),
        findRuns_flatten, List.filter_eq_nil_iff.mpr
          (fun c hc => by simp [(h c hc).1])]
      rfl
    refine ⟨hcount, fun m hm => ?_⟩
    rw [validate_content_false_iff]
    right
    omega

/-- Witness instantiating `c10_count_words_amended` on digits-only text. -/
theorem c10_count_words_amended_witness :
    count_words (str "2024!") = 0 ∧ validate_content (str "2024!") 7 = false :=
  ⟨((c10_count_words_amended (str "2024!")).2 (by decide)).1,
   ((c10_count_words_amended (str "2024!")).2 (by decide)).2 7 (by decide)⟩

/-- C9: a chapter whose word count equals 55% of `min_words` (45% below
target) makes `Writer.refine_chapter` choose the full-rewrite prompt, never
the targeted-edit prompt. -/
theorem c9_refine_full_rewrite_branch (ch : Chapter) (min_words max_words : Nat)
    (hmin : 1 ≤ min_words)
    (hwc : (ch.word_count : ℚ) = (min_words : ℚ) * (55 / 100)) :
    refine_chapter_branch ch min_words max_words = RefineBranch.fullRewrite
    ∧ refine_chapter_branch ch min_words max_words ≠ RefineBranch.targetedEdit := by
  have hnat : 100 * ch.word_count = 55 * min_words := by
    have h := hwc
    rw [mul_comm (min_words : ℚ), div_mul_eq_mul_div,
      eq_div_iff (by norm_num : (100:ℚ) ≠ 0)] at h
    have : ((100 * ch.word_count : Nat) : ℚ) = ((55 * min_words : Nat) : ℚ) := by
      push_cast
      linarith
    exact_mod_cast this
  have hbranch : needs_full_rewrite ch.word_count min_words max_words = true := by
    unfold needs_full_rewrite
    have : 10 * ch.word_count < 8 * min_words := by omega
    simp [this]
  rw [refine_chapter_branch, if_pos hbranch]
  exact ⟨rfl, by intro h; cases h⟩

/-- Witness instantiating `c9_refine_full_rewrite_branch` at
`word_count = 110`, `min_words = 200`, `max_words = 400`. -/
theorem c9_refine_full_rewrite_branch_witness :
    refine_chapter_branch ⟨3, str "제목", str "개요", str "본문", [], [], 110⟩ 200 400 =
      RefineBranch.fullRewrite
    ∧ refine_chapter_branch ⟨3, str "제목", str "개요", str "본문", [], [], 110⟩ 200 400 ≠
      RefineBranch.targetedEdit :=
  c9_refine_full_rewrite_branch _ 200 400 (by decide) (by norm_num)

/-- C5: with `min_words = 200, max_words = 400` and every draft attempt
yielding 50 words, `write_chapter` retries twice, then accepts the last
draft anyway: it returns that non-empty content and records
`word_count = 50`; `validate_content` fails exactly on blank content or a
word count below 30% of `min_words`; and in general the pipeline performs
at most 2 redraft attempts before accepting whatever it has. -/
theorem c5_write_chapter_accepts_short_draft (draft : Nat → Str)
    (hdraft : ∀ i, count_words (draft i) = 50) :
    write_chapter draft 200 = (draft 2, 50)
    ∧ (write_chapter draft 200).1 ≠ []
    ∧ (∀ (content : Str) (m : Nat),
        validate_content content m = false ↔
          (pyStrip content = [] ∨ 10 * count_words content < 3 * m))
    ∧ (∀ (d : Nat → Str) (m : Nat), ∃ i, i ≤ 2 ∧
        write_chapter d m = (d i, count_words (d i))) := by
  have hv : ∀ i, validate_content (draft i) 200 = false := fun i => by
    rw [validate_content_false_iff]
    right
    rw [hdraft i]
    omega
  have hrun : write_chapter draft 200 = (draft 2, 50) := by
    simp [write_chapter, write_chapter_aux, hv 0, hv 1, hv 2, hdraft 2]
  refine ⟨hrun, ?_, validate_content_false_iff, ?_⟩
  · rw [hrun]
    show draft 2 ≠ []
    intro h
    have := hdraft 2
    rw [h] at this
    simp [count_words, findRuns, findRunsAux] at this
  · intro d m
    by_cases h0 : validate_content (d 0) m = false
    · by_cases h1 : validate_content (d 1) m = false
      · exact ⟨2, by omega, by simp [write_chapter, write_chapter_aux, h0, h1]⟩
      · exact ⟨1, by omega, by simp [write_chapter, write_chapter_aux, h0, h1]⟩
    · exact ⟨0, by omega, by simp [write_chapter, write_chapter_aux, h0]⟩

/-- Witness instantiating `c5_write_chapter_accepts_short_draft` on the
constant 50-word draft oracle. -/
theorem c5_write_chapter_accepts_short_draft_witness :
    write_chapter fiftyWordDraft 200 = (fiftyWordDraft 2, 50)
    ∧ (write_chapter fiftyWordDraft 200).1 ≠ []
    ∧ (∀ (content : Str) (m : Nat),
        validate_content content m = false ↔
          (pyStrip content = [] ∨ 10 * count_words content < 3 * m))
    ∧ (∀ (d : Nat → Str) (m : Nat), ∃ i, i ≤ 2 ∧
        write_chapter d m = (d i, count_words (d i))) :=
  c5_write_chapter_accepts_short_draft fiftyWordDraft (fun _ => rfl)

/-- C4: deserializing the result of serialization restores the
character-development map, the plot-thread map and the memory log, provided
the fields hold their declared container types. -/
theorem c4_memory_roundtrip (m : NovelMemoryManager)
    (hmem : m.memory.isList = true)
    (hcd : m.character_development.isDict = true)
    (hpt : m.plot_threads.isDict = true) :
    (from_dict (to_dict m)).character_development = m.character_development
    ∧ (from_dict (to_dict m)).plot_threads = m.plot_threads
    ∧ (from_dict (to_dict m)).memory = m.memory := by
  have h : from_dict (to_dict m) =
      ⟨if m.memory.isList then m.memory else .vlist [],
       if m.character_development.isDict then m.character_development else .vdict [],
       if m.plot_threads.isDict || m.plot_threads.isList then m.plot_threads
         else .vdict [],
       if m.world_events.isList then m.world_events else .vlist []⟩ := rfl
  rw [h]
  simp [hmem, hcd, hpt]

/-- Witness instantiating `c4_memory_roundtrip` on a concrete well-typed
memory state. -/
theorem c4_memory_roundtrip_witness :
    (from_dict (to_dict sampleMemoryState)).character_development =
      sampleMemoryState.character_development
    ∧ (from_dict (to_dict sampleMemoryState)).plot_threads =
      sampleMemoryState.plot_threads
    ∧ (from_dict (to_dict sampleMemoryState)).memory =
      sampleMemoryState.memory :=
  c4_memory_roundtrip sampleMemoryState rfl rfl rfl

/-- C6: when the parsed optimization response is absent/falsy or not a
mapping, `optimize_memory` leaves `character_development` and
`plot_threads` exactly as they were and reports failure. -/
theorem c6_optimize_noop_on_invalid (mm : NovelMemoryManager) (data : PyVal)
    (h : pyTruthy data = false ∨ data.isDict = false) :
    (optimize_memory mm data).1.character_development =
      mm.character_development
    ∧ (optimize_memory mm data).1.plot_threads = mm.plot_threads
    ∧ (optimize_memory mm data).2 = false := by
  have hnone : optimize_with_llm data = none := by
    unfold optimize_with_llm
    rcases h with h | h <;> simp [h]
  simp [optimize_memory, hnone]

/-- Witness instantiating `c6_optimize_noop_on_invalid` with an empty-dict
(falsy) parsed response. -/
theorem c6_optimize_noop_on_invalid_witness :
    (optimize_memory sampleMemoryState (.vdict [])).1.character_development =
      sampleMemoryState.character_development
    ∧ (optimize_memory sampleMemoryState (.vdict [])).1.plot_threads =
      sampleMemoryState.plot_threads
    ∧ (optimize_memory sampleMemoryState (.vdict [])).2 = false :=
  c6_optimize_noop_on_invalid sampleMemoryState (.vdict []) (Or.inl rfl)

/-- C8: `_parse_json_response` on the exact input
`{"content": "Hello\nWorld"}` returns the two-line string `Hello⏎World`,
with the escaped newline converted to a real newline and escaped quotes
unescaped. -/
theorem c8_json_envelope_unwrap :
    parse_json_response (str "\x7b\"content\": \"Hello\\nWorld\"\x7d") =
      str "Hello\nWorld" := by
  decide

end NovelWriter
